import Mathlib

/-!
Verification of the mcp-server-whisper core (src/mcp_server_whisper/server.py):
a shallow embedding of its path handling, format-capability resolution,
conversion/compression pipeline, batch orchestration (asyncio.gather) and the
two transcription dispatch paths, together with theorems settling the frozen
claims about the specification.

External capabilities (the filesystem, the pydub codec, the OpenAI client,
base64) are modelled as oracle fields of explicit environment structures, and
each embedded operation additionally returns the ordered trace of the
filesystem/codec/network effects it performed, so that frame conditions
("no writes", "no remote call") are statable.
-/

namespace MCPWhisper

/-! ## Path model

Mirrors CPython `pathlib.PurePath`: a path is a parent directory (kept
abstract, as a string) plus a final-component name, held as a list of
characters.  `suffix`, `stem` and `with_suffix` follow the CPython
implementation: the suffix is the part of the name from the last dot,
provided that dot is neither the first nor the last character of the name.
-/

/-- Tail of the name starting at its last dot (dot included); none when the
name has no dot.  This is the structural counterpart of CPython's
name.rfind of a dot. -/
def lastDotTail : List Char → Option (List Char)
  | [] => none
  | c :: rest =>
    match lastDotTail rest with
    | some s => some s
    | none => if c = '.' then some (c :: rest) else none

/-- CPython suffix: name[i:] when i = rfind of a dot satisfies 0 < i < len-1,
else the empty suffix. -/
def pySuffix (name : List Char) : List Char :=
  match lastDotTail name with
  | none => []
  | some s => if s.length < name.length ∧ 1 < s.length then s else []

/-- CPython stem: the name with its suffix (if any) removed. -/
def pyStem (name : List Char) : List Char :=
  name.take (name.length - (pySuffix name).length)

/-- CPython with_suffix on the name: append when there is no old suffix,
else replace the old suffix. -/
def pyWithSuffix (name : List Char) (suffix : List Char) : List Char :=
  let old := pySuffix name
  if old = [] then name ++ suffix else name.take (name.length - old.length) ++ suffix

/-- A filesystem path: an abstract parent directory plus a final name. -/
structure PyPath where
  parent : String
  name : List Char
deriving DecidableEq, Repr

def PyPath.suffix (p : PyPath) : List Char := pySuffix p.name

def PyPath.stem (p : PyPath) : List Char := pyStem p.name

def PyPath.withSuffix (p : PyPath) (s : List Char) : PyPath :=
  { parent := p.parent, name := pyWithSuffix p.name s }

def PyPath.toStr (p : PyPath) : String := p.parent ++ "/" ++ String.mk p.name

/-- Sanity checks of the CPython suffix semantics on concrete names. -/
theorem pySuffix_concrete_checks :
    pySuffix "audio.wav".data = ".wav".data ∧
    pySuffix "archive.tar.gz".data = ".gz".data ∧
    pySuffix ".bashrc".data = [] ∧
    pySuffix "trailing.".data = [] ∧
    pySuffix "noext".data = [] ∧
    pyStem "archive.tar.gz".data = "archive.tar".data ∧
    pyWithSuffix "audio.wav".data ".mp3".data = "audio.mp3".data ∧
    pyWithSuffix "noext".data ".mp3".data = "noext.mp3".data := by
  refine ⟨?_, ?_, ?_, ?_, ?_, ?_, ?_, ?_⟩ <;> decide

/-! ### Structural facts about the suffix -/

theorem lastDotTail_none_no_dot : ∀ {name : List Char}, lastDotTail name = none → '.' ∉ name := by
  intro name
  induction name with
  | nil => intro _; simp
  | cons c rest ih =>
    intro h
    simp only [lastDotTail] at h
    cases hrest : lastDotTail rest with
    | some s => rw [hrest] at h; simp at h
    | none =>
      rw [hrest] at h
      by_cases hc : c = '.'
      · rw [if_pos hc] at h; simp at h
      · intro hmem
        rcases List.mem_cons.mp hmem with h1 | h2
        · exact hc h1.symm
        · exact ih hrest h2

theorem lastDotTail_some_shape : ∀ {name s : List Char}, lastDotTail name = some s →
    ∃ t, s = '.' :: t ∧ '.' ∉ t := by
  intro name
  induction name with
  | nil => intro s h; simp [lastDotTail] at h
  | cons c rest ih =>
    intro s h
    simp only [lastDotTail] at h
    cases hrest : lastDotTail rest with
    | some s2 =>
      rw [hrest] at h
      simp at h
      exact h ▸ ih hrest
    | none =>
      rw [hrest] at h
      by_cases hc : c = '.'
      · simp [hc] at h
        exact ⟨rest, by simp [← h, hc], lastDotTail_none_no_dot hrest⟩
      · simp [hc] at h

/-- The Python suffix is empty or a dot followed by dot-free characters. -/
theorem pySuffix_shape (name : List Char) :
    pySuffix name = [] ∨ ∃ t, pySuffix name = '.' :: t ∧ '.' ∉ t := by
  unfold pySuffix
  cases h : lastDotTail name with
  | none => exact Or.inl rfl
  | some s =>
    dsimp only
    by_cases hcond : s.length < name.length ∧ 1 < s.length
    · rw [if_pos hcond]
      exact Or.inr (lastDotTail_some_shape h)
    · rw [if_neg hcond]
      exact Or.inl rfl

theorem pySuffix_length_lt {name : List Char} (h : pySuffix name ≠ []) :
    (pySuffix name).length < name.length := by
  unfold pySuffix at *
  cases hl : lastDotTail name with
  | none => rw [hl] at h; simp at h
  | some s =>
    rw [hl] at h
    dsimp only at h ⊢
    by_cases hcond : s.length < name.length ∧ 1 < s.length
    · rw [if_pos hcond]
      exact hcond.1
    · rw [if_neg hcond] at h
      simp at h

theorem pyStem_ne_nil {name : List Char} (h : name ≠ []) : pyStem name ≠ [] := by
  unfold pyStem
  by_cases hs : pySuffix name = []
  · rw [hs]
    simpa using h
  · have hlt := pySuffix_length_lt hs
    have : 0 < name.length - (pySuffix name).length := by omega
    intro hcontra
    have := congrArg List.length hcontra
    rw [List.length_take] at this
    simp at this
    omega

theorem pyWithSuffix_eq_stem_append (name s : List Char) :
    pyWithSuffix name s = pyStem name ++ s := by
  unfold pyWithSuffix pyStem
  by_cases h : pySuffix name = []
  · rw [if_pos h, h]
    simp
  · rw [if_neg h]

theorem lastDotTail_append_mp3 (t : List Char) :
    lastDotTail (t ++ ".mp3".data) = some ".mp3".data := by
  induction t with
  | nil => decide
  | cons c rest ih =>
    show lastDotTail (c :: (rest ++ ".mp3".data)) = some ".mp3".data
    unfold lastDotTail
    rw [ih]

theorem pySuffix_append_mp3 {t : List Char} (h : t ≠ []) :
    pySuffix (t ++ ".mp3".data) = ".mp3".data := by
  unfold pySuffix
  rw [lastDotTail_append_mp3]
  dsimp only
  rw [if_pos]
  constructor
  · rw [List.length_append]
    have : 0 < t.length := List.length_pos.mpr h
    omega
  · decide

theorem pyStem_append_mp3 {t : List Char} (h : t ≠ []) :
    pyStem (t ++ ".mp3".data) = t := by
  unfold pyStem
  rw [pySuffix_append_mp3 h, List.length_append]
  have : t.length + (".mp3".data).length - (".mp3".data).length = t.length := by omega
  rw [this]
  exact List.take_left t ".mp3".data

/-- Replacing a nonempty name's suffix by .mp3 preserves the stem. -/
theorem pyStem_withSuffix_mp3 {name : List Char} (h : name ≠ []) :
    pyStem (pyWithSuffix name ".mp3".data) = pyStem name := by
  rw [pyWithSuffix_eq_stem_append]
  exact pyStem_append_mp3 (pyStem_ne_nil h)

/-- Replacing a nonempty name's suffix by .mp3 yields suffix .mp3. -/
theorem pySuffix_withSuffix_mp3 {name : List Char} (h : name ≠ []) :
    pySuffix (pyWithSuffix name ".mp3".data) = ".mp3".data := by
  rw [pyWithSuffix_eq_stem_append]
  exact pySuffix_append_mp3 (pyStem_ne_nil h)

/-- Char.toLower maps no character other than the dot to the dot. -/
theorem toLower_eq_dot {c : Char} (h : Char.toLower c = '.') : c = '.' := by
  unfold Char.toLower at h
  simp only at h
  by_cases hn : c.toNat ≥ 65 ∧ c.toNat ≤ 90
  · rw [if_pos hn] at h
    exfalso
    obtain ⟨h1, h2⟩ := hn
    generalize hgen : c.toNat = n at h h1 h2
    interval_cases n <;> exact absurd h (by decide)
  · rw [if_neg hn] at h
    exact h

/-! ## Static capability tables and enhancement templates (server.py lines 18-37) -/

def WHISPER_AUDIO_FORMATS : List (List Char) :=
  [".mp3".data, ".wav".data, ".mp4".data, ".mpeg".data, ".mpga".data, ".m4a".data, ".webm".data]

def GPT_4O_AUDIO_FORMATS : List (List Char) := [".mp3".data, ".wav".data]

/-- The closed enumeration of enhancement-type tags (the EnhancementType Literal). -/
inductive EnhancementType
  | detailed
  | storytelling
  | professional
  | analytical
deriving DecidableEq, Repr

/-- The static enhancement-prompt table (total over the closed enumeration). -/
def ENHANCEMENT_PROMPTS : EnhancementType → String
  | .detailed =>
      "Please transcribe this audio and include details about tone of voice, emotional undertones, and any background elements you notice. Make it rich and descriptive."
  | .storytelling =>
      "Transform this audio into an engaging narrative. Maintain the core message but present it as a story."
  | .professional =>
      "Transcribe this audio and format it in a professional, business-appropriate manner. Clean up any verbal fillers and structure it clearly."
  | .analytical =>
      "Transcribe this audio and analyze the speech patterns, key discussion points, and overall structure. Include observations about delivery and organization."

/-! ## Input parameter records (server.py lines 40-102) -/

structure ConvertAudioInputParams where
  input_file_path : PyPath
  output_file_path : Option PyPath := none
  target_format : String := "mp3"
deriving DecidableEq, Repr

structure CompressAudioInputParams where
  input_file_path : PyPath
  output_file_path : Option PyPath := none
  max_mb : Nat := 25
deriving DecidableEq, Repr

structure TranscribeAudioInputParams where
  input_file_path : PyPath
  model : String := "whisper-1"
deriving DecidableEq, Repr

structure TranscribeWithLLMInputParams where
  input_file_path : PyPath
  text_prompt : Option String := none
  model : String := "gpt-4o-audio-preview-2024-10-01"
deriving DecidableEq, Repr

structure TranscribeWithEnhancementInputParams where
  input_file_path : PyPath
  enhancement_type : EnhancementType := .detailed
  model : String := "gpt-4o-audio-preview-2024-10-01"
deriving DecidableEq, Repr

/-- Embeds server.py lines 85-91: rewrite an enhancement request into the equivalent
custom-prompt request. -/
def TranscribeWithEnhancementInputParams.to_transcribe_with_llm_input_params
    (p : TranscribeWithEnhancementInputParams) : TranscribeWithLLMInputParams :=
  { input_file_path := p.input_file_path
    text_prompt := some (ENHANCEMENT_PROMPTS p.enhancement_type)
    model := p.model }

structure FilePathSupportParams where
  file_path : PyPath
  transcription_support : Option (List String) := none
  llm_support : Option (List String) := none
  modified_time : Nat
deriving DecidableEq, Repr

/-- The Python exception kinds raised by the embedded code. -/
inductive PyExc
  | valueError (msg : String)
  | runtimeError (msg : String)
  | fileNotFoundError (msg : String)
  | assertionError (msg : String)
deriving DecidableEq, Repr

/-- Python str(e): the message carried by the exception. -/
def PyExc.str : PyExc → String
  | .valueError m => m
  | .runtimeError m => m
  | .fileNotFoundError m => m
  | .assertionError m => m

/-! ## Format Capability Resolver (server.py lines 120-134)

The Path.stat call is modelled by an oracle giving the modification time of a
path, or none when the path does not exist (in which case stat raises). -/

structure StatEnv where
  mtime : PyPath → Option Nat

def get_audio_file_support (env : StatEnv) (file_path : PyPath) :
    Except PyExc FilePathSupportParams :=
  let file_ext := file_path.suffix.map Char.toLower
  let transcription_support : Option (List String) :=
    if file_ext ∈ WHISPER_AUDIO_FORMATS then some ["whisper-1"] else none
  let llm_support : Option (List String) :=
    if file_ext ∈ GPT_4O_AUDIO_FORMATS then some ["gpt-4o-audio-preview-2024-10-01"] else none
  match env.mtime file_path with
  | none => .error (.fileNotFoundError ("No such file or directory: " ++ file_path.toStr))
  | some t =>
      .ok { file_path := file_path
            transcription_support := transcription_support
            llm_support := llm_support
            modified_time := t }

/-! ## Conversion Engine and Compression Pipeline (server.py lines 196-290)

The pydub codec and the filesystem are oracles in a CodecEnv; each embedded
function also returns the ordered trace of effects it performed.  decode
models AudioSegment.from_file (path, format), encode models audio.export
(path, format, extra ffmpeg parameters); both may fail with an underlying
error string.  size models the full-content read used to measure a file
(none: opening the file raises). -/

structure CodecEnv where
  size : PyPath → Option Nat
  decode : PyPath → List Char → Except String Unit
  encode : PyPath → List Char → List String → Except String Unit

inductive CodecEvent
  | readFull (p : PyPath)
  | decodeEv (p : PyPath) (fmt : List Char)
  | exportEv (p : PyPath) (fmt : List Char) (params : List String)
deriving DecidableEq, Repr

/-- An export event is the only filesystem write the pipeline performs. -/
def CodecEvent.isWrite : CodecEvent → Bool
  | .exportEv _ _ _ => true
  | _ => false

/-- A downsampling export: one whose ffmpeg parameters set an output sample
rate (the -ar parameter). -/
def CodecEvent.isResample : CodecEvent → Bool
  | .exportEv _ _ params => params.contains "-ar"
  | _ => false

/-- Embeds server.py lines 196-224 after the default output path is resolved:
decode the source in its own format, then export to the output path in the
target format forcing 2 audio channels. -/
def convertBody (env : CodecEnv) (input_file output_path : PyPath)
    (target_format : String) : Except PyExc PyPath × List CodecEvent :=
  match env.decode input_file (input_file.suffix.drop 1) with
  | .error e =>
      (.error (.runtimeError ("Audio conversion failed: " ++ e)),
       [.decodeEv input_file (input_file.suffix.drop 1)])
  | .ok _ =>
      match env.encode output_path target_format.data ["-ac", "2"] with
      | .error e =>
          (.error (.runtimeError ("Audio conversion failed: " ++ e)),
           [.decodeEv input_file (input_file.suffix.drop 1),
            .exportEv output_path target_format.data ["-ac", "2"]])
      | .ok _ =>
          (.ok output_path,
           [.decodeEv input_file (input_file.suffix.drop 1),
            .exportEv output_path target_format.data ["-ac", "2"]])

/-- Embeds server.py lines 196-224: convert_to_supported_format.  When no output
path is given it is input_file.with_suffix of the target format; pathlib
with_suffix raises ValueError on an empty name before any codec work. -/
def convert_to_supported_format (env : CodecEnv) (input_file : PyPath)
    (output_path : Option PyPath) (target_format : String) :
    Except PyExc PyPath × List CodecEvent :=
  match output_path with
  | some out => convertBody env input_file out target_format
  | none =>
      if input_file.name = [] then
        (.error (.valueError (PyPath.toStr input_file ++ " has an empty name")), [])
      else
        convertBody env input_file
          (input_file.withSuffix ("." ++ target_format).data) target_format

/-- Embeds server.py lines 227-254: compress_mp3_file.  Requires a (case-insensitive)
.mp3 suffix; default output is a sibling file compressed_{stem}.mp3; decodes
as mp3 and re-exports as mp3 at the given output sample rate. -/
def compress_mp3_file (env : CodecEnv) (mp3_file_path : PyPath)
    (output_path : Option PyPath) (out_sample_rate : Nat) :
    Except PyExc PyPath × List CodecEvent :=
  if mp3_file_path.suffix.map Char.toLower ≠ ".mp3".data then
    (.error (.valueError "compress_mp3_file() called on a file that is not .mp3"), [])
  else
    let out := output_path.getD
      { parent := mp3_file_path.parent
        name := "compressed_".data ++ mp3_file_path.stem ++ ".mp3".data }
    match env.decode mp3_file_path "mp3".data with
    | .error e =>
        (.error (.runtimeError ("Error compressing mp3 file: " ++ e)),
         [.decodeEv mp3_file_path "mp3".data])
    | .ok _ =>
        match env.encode out "mp3".data ["-ar", toString out_sample_rate] with
        | .error e =>
            (.error (.runtimeError ("Error compressing mp3 file: " ++ e)),
             [.decodeEv mp3_file_path "mp3".data,
              .exportEv out "mp3".data ["-ar", toString out_sample_rate]])
        | .ok _ =>
            (.ok out,
             [.decodeEv mp3_file_path "mp3".data,
              .exportEv out "mp3".data ["-ar", toString out_sample_rate]])

/-- Embeds server.py lines 257-290: maybe_compress_file.  Measures the source by a
full read; at or below the threshold the source is returned untouched.
Above it, a non-mp3 source is first converted to mp3 at the default-derived
path, then a single downsampling pass at 11025 Hz is applied, the resulting
file is measured once (without comparing against the threshold) and its path
returned. -/
def maybe_compress_file (env : CodecEnv) (input_file : PyPath)
    (output_path : Option PyPath) (max_mb : Nat) :
    Except PyExc PyPath × List CodecEvent :=
  match env.size input_file with
  | none =>
      (.error (.fileNotFoundError ("No such file or directory: " ++ input_file.toStr)), [])
  | some file_size =>
      let threshold_bytes := max_mb * 1024 * 1024
      if file_size ≤ threshold_bytes then
        (.ok input_file, [.readFull input_file])
      else
        let conv : Except PyExc PyPath × List CodecEvent :=
          if input_file.suffix.map Char.toLower ≠ ".mp3".data then
            match convert_to_supported_format env input_file none "mp3" with
            | (.error e, evs) =>
                (.error (.runtimeError
                  ("[maybe_compress_file] Error converting to MP3: " ++ e.str)), evs)
            | (.ok p, evs) => (.ok p, evs)
          else
            (.ok input_file, [])
        match conv with
        | (.error e, evs) => (.error e, .readFull input_file :: evs)
        | (.ok mp3file, evs) =>
            match compress_mp3_file env mp3file output_path 11025 with
            | (.error e, evs2) =>
                (.error (.runtimeError
                   ("[maybe_compress_file] Error compressing MP3 file: " ++ e.str)),
                 .readFull input_file :: (evs ++ evs2))
            | (.ok compressed_path, evs2) =>
                match env.size compressed_path with
                | none =>
                    (.error (.fileNotFoundError
                       ("No such file or directory: " ++ compressed_path.toStr)),
                     .readFull input_file :: (evs ++ evs2))
                | some _ =>
                    (.ok compressed_path,
                     .readFull input_file :: (evs ++ evs2) ++ [.readFull compressed_path])

/-! ## Batch Orchestrator (asyncio.gather, used at server.py lines 306, 325, 359, 405)

Every batch tool builds one task per input item and awaits
asyncio.gather(*tasks).  Concurrency is modelled by an explicit completion
schedule: a list of slot indices in the order the per-item tasks finish.
Each finishing task either stores its result in its input-position slot or,
if it raised, makes the whole gather call raise that exception (the default
return_exceptions=False behaviour: the awaiting caller receives the first
raised exception and never receives the result list). -/

/-- Process completions in schedule order over the slot assignment. -/
def completeTasks (worker : α → Except ε β) (inputs : List α) :
    List Nat → (Nat → Option β) → Except ε (Nat → Option β)
  | [], slots => .ok slots
  | i :: rest, slots =>
      match inputs.get? i with
      | none => completeTasks worker inputs rest slots
      | some a =>
          match worker a with
          | .error e => .error e
          | .ok b => completeTasks worker inputs rest (fun j => if j = i then some b else slots j)

/-- Models asyncio.gather over pure per-item workers: on success the i-th slot holds
the i-th task's result; on any task failure the whole call fails with that
exception and no slot list is returned. -/
def asyncio_gather (worker : α → Except ε β) (inputs : List α) (order : List Nat) :
    Except ε (List (Option β)) :=
  match completeTasks worker inputs order (fun _ => none) with
  | .error e => .error e
  | .ok slots => .ok ((List.range inputs.length).map slots)

/-! ## Transcription Dispatcher: speech-to-text path (server.py lines 328-359)

The filesystem and the remote speech-to-text capability are oracles; bytes
are lists of naturals.  The per-item worker of transcribe_audio. -/

structure WhisperEnv where
  pexists : PyPath → Bool
  is_file : PyPath → Bool
  readBytes : PyPath → Except String (List Nat)
  transcriptionsCreate : String → List Nat → List Char → Except String String

inductive WhisperEvent
  | readEv (p : PyPath)
  | apiEv (model : String) (content : List Nat) (filename : List Char)
deriving DecidableEq, Repr

structure TranscriptionResult where
  text : String
deriving DecidableEq, Repr

/-- Embeds server.py lines 335-357: the per-item worker of transcribe_audio.
Raises FileNotFoundError before any read or remote call when the path does
not exist or is not a regular file; wraps any downstream error as a
RuntimeError naming the file. -/
def process_single_transcribe (env : WhisperEnv) (input_data : TranscribeAudioInputParams) :
    Except PyExc TranscriptionResult × List WhisperEvent :=
  let file_path := input_data.input_file_path
  if !env.pexists file_path || !env.is_file file_path then
    (.error (.fileNotFoundError ("File not found: " ++ file_path.toStr)), [])
  else
    match env.readBytes file_path with
    | .error e =>
        (.error (.runtimeError ("Whisper processing failed for " ++ file_path.toStr ++ ": " ++ e)),
         [.readEv file_path])
    | .ok file_content =>
        match env.transcriptionsCreate input_data.model file_content file_path.name with
        | .error e =>
            (.error (.runtimeError ("Whisper processing failed for " ++ file_path.toStr ++ ": " ++ e)),
             [.readEv file_path, .apiEv input_data.model file_content file_path.name])
        | .ok transcript =>
            (.ok { text := transcript },
             [.readEv file_path, .apiEv input_data.model file_content file_path.name])

/-! ## Transcription Dispatcher: audio-capable-chat path (server.py lines 362-405)

base64 is a pure transport encoding supplied by the environment; the chat
completion capability receives the model and the ordered message content
parts and returns the first choice's message content (which may be null). -/

inductive ContentPart
  | text (s : String)
  | input_audio (data : String) (format : List Char)
deriving DecidableEq, Repr

structure LLMEnv where
  pexists : PyPath → Bool
  is_file : PyPath → Bool
  readBytes : PyPath → Except String (List Nat)
  b64encode : List Nat → String
  chatCompletionsCreate : String → List ContentPart → Except String (Option String)

inductive LLMEvent
  | readEv (p : PyPath)
  | apiEv (model : String) (content : List ContentPart)
deriving DecidableEq, Repr

/-- Embeds server.py line 373: ext = file_path.suffix.lower().replace(".", ""). -/
def llmExt (p : PyPath) : List Char :=
  (p.suffix.map Char.toLower).filter (fun c => c ≠ '.')

/-- Python truthiness of an optional string: None and the empty string are
falsy. -/
def strOptTruthy : Option String → Bool
  | none => false
  | some s => s ≠ ""

structure LLMResult where
  text : Option String
deriving DecidableEq, Repr

/-- Embeds server.py lines 368-403: the per-item worker of transcribe_with_llm.
Checks existence, then asserts the dot-stripped lowercased suffix is mp3 or
wav, then reads and base64-encodes the file, builds the message content (an
optional leading text part when the prompt is truthy, then the audio part)
and dispatches it. -/
def process_single_llm (env : LLMEnv) (input_data : TranscribeWithLLMInputParams) :
    Except PyExc LLMResult × List LLMEvent :=
  let file_path := input_data.input_file_path
  if !env.pexists file_path || !env.is_file file_path then
    (.error (.fileNotFoundError ("File not found: " ++ file_path.toStr)), [])
  else
    let ext := llmExt file_path
    if !(ext = "mp3".data || ext = "wav".data) then
      (.error (.assertionError ("Expected mp3 or wav extension, but got " ++ String.mk ext)), [])
    else
      match env.readBytes file_path with
      | .error e =>
          (.error (.runtimeError ("Failed reading audio file " ++ file_path.toStr ++ ": " ++ e)),
           [.readEv file_path])
      | .ok audio_bytes =>
          let audio_b64 := env.b64encode audio_bytes
          let user_content : List ContentPart :=
            (if strOptTruthy input_data.text_prompt then
              [ContentPart.text (input_data.text_prompt.getD "")]
            else []) ++ [ContentPart.input_audio audio_b64 ext]
          match env.chatCompletionsCreate input_data.model user_content with
          | .error e =>
              (.error (.runtimeError ("GPT-4 processing failed for " ++ file_path.toStr ++ ": " ++ e)),
               [.readEv file_path, .apiEv input_data.model user_content])
          | .ok content =>
              (.ok { text := content },
               [.readEv file_path, .apiEv input_data.model user_content])

/-- Embeds server.py lines 408-420: transcribe_with_enhancement rewrites every item
and delegates to transcribe_with_llm. -/
def transcribe_with_enhancement_items
    (inputs : List TranscribeWithEnhancementInputParams) : List TranscribeWithLLMInputParams :=
  inputs.map TranscribeWithEnhancementInputParams.to_transcribe_with_llm_input_params

/-! ## Sample environments and inputs used by the witnesses -/

def statEnvAll : StatEnv := { mtime := fun _ => some 0 }

def codecEnvOk (sz : Nat) : CodecEnv :=
  { size := fun _ => some sz
    decode := fun _ _ => .ok ()
    encode := fun _ _ _ => .ok () }

def whisperEnvMissing : WhisperEnv :=
  { pexists := fun _ => false
    is_file := fun _ => false
    readBytes := fun _ => .error "io"
    transcriptionsCreate := fun _ _ _ => .error "api" }

def llmEnvOk : LLMEnv :=
  { pexists := fun _ => true
    is_file := fun _ => true
    readBytes := fun _ => .ok [1, 2, 3]
    b64encode := fun _ => "AQID"
    chatCompletionsCreate := fun _ _ => .ok (some "hello") }

/-! ## Claim C6: enhancement expansion -/

/-- Claim C6: for every enhancement request, the rewritten audio-capable-chat
request equals, field by field, the manual-prompt request with the same input
file path, the same model, and text_prompt the fixed template string for the
request's tag; the rewriting is total over the four tags (it is a total Lean
function on the closed enumeration) and deterministic: requests with the same
tag receive the same prompt text. -/
theorem enhancement_rewrite_eq_manual (p : TranscribeWithEnhancementInputParams) :
    p.to_transcribe_with_llm_input_params =
      { input_file_path := p.input_file_path
        text_prompt := some (ENHANCEMENT_PROMPTS p.enhancement_type)
        model := p.model } ∧
    ∀ q : TranscribeWithEnhancementInputParams,
      q.enhancement_type = p.enhancement_type →
        q.to_transcribe_with_llm_input_params.text_prompt =
          p.to_transcribe_with_llm_input_params.text_prompt := by
  refine ⟨rfl, ?_⟩
  intro q h
  simp [TranscribeWithEnhancementInputParams.to_transcribe_with_llm_input_params, h]

/-- Witness for C6 at the professional tag on a concrete file. -/
theorem enhancement_rewrite_eq_manual_witness :
    ({ input_file_path := ⟨"/tmp", "a.mp3".data⟩, enhancement_type := .professional } :
        TranscribeWithEnhancementInputParams).to_transcribe_with_llm_input_params =
      { input_file_path := ⟨"/tmp", "a.mp3".data⟩
        text_prompt := some (ENHANCEMENT_PROMPTS .professional)
        model := "gpt-4o-audio-preview-2024-10-01" } ∧
    ({ input_file_path := ⟨"/x", "b.wav".data⟩, enhancement_type := .professional } :
        TranscribeWithEnhancementInputParams).to_transcribe_with_llm_input_params.text_prompt =
      ({ input_file_path := ⟨"/tmp", "a.mp3".data⟩, enhancement_type := .professional } :
        TranscribeWithEnhancementInputParams).to_transcribe_with_llm_input_params.text_prompt :=
  ⟨(enhancement_rewrite_eq_manual _).1,
   (enhancement_rewrite_eq_manual
      { input_file_path := ⟨"/tmp", "a.mp3".data⟩, enhancement_type := .professional }).2
      { input_file_path := ⟨"/x", "b.wav".data⟩, enhancement_type := .professional } rfl⟩

/-! ## Claim C3: Format Capability Resolver -/

/-- Claim C3 counterexample: the claim says an extension outside a capability
set yields the empty list; on the code, a .txt file gets None (null) in both
support fields, which is not the empty list. -/
theorem resolver_none_counterexample :
    (get_audio_file_support statEnvAll ⟨"/tmp", "doc.txt".data⟩).map
        FilePathSupportParams.transcription_support = .ok none ∧
    (get_audio_file_support statEnvAll ⟨"/tmp", "doc.txt".data⟩).map
        FilePathSupportParams.llm_support = .ok none ∧
    (get_audio_file_support statEnvAll ⟨"/tmp", "doc.txt".data⟩).map
        FilePathSupportParams.transcription_support ≠ .ok (some []) ∧
    (get_audio_file_support statEnvAll ⟨"/tmp", "doc.txt".data⟩).map
        FilePathSupportParams.llm_support ≠ .ok (some []) := by
  refine ⟨rfl, rfl, ?_, ?_⟩ <;>
    · intro h
      exact Option.noConfusion (Except.ok.inj
        ((rfl : (Except.ok (none : Option (List String)) :
            Except PyExc (Option (List String))) = _).trans h))

/-- Claim C3 (amended): for every path whose metadata is readable, the
resolver returns transcription support exactly [whisper-1] when the
lowercased extension is among the seven speech-to-text formats and None (not
the empty list) otherwise, and chat support exactly
[gpt-4o-audio-preview-2024-10-01] when the lowercased extension is .mp3 or
.wav and None otherwise. -/
theorem resolver_support_sets (env : StatEnv) (p : PyPath) (t : Nat)
    (h : env.mtime p = some t) :
    ∃ r, get_audio_file_support env p = .ok r ∧
      (p.suffix.map Char.toLower ∈
          [".mp3".data, ".wav".data, ".mp4".data, ".mpeg".data, ".mpga".data,
           ".m4a".data, ".webm".data] →
        r.transcription_support = some ["whisper-1"]) ∧
      (p.suffix.map Char.toLower ∉
          [".mp3".data, ".wav".data, ".mp4".data, ".mpeg".data, ".mpga".data,
           ".m4a".data, ".webm".data] →
        r.transcription_support = none) ∧
      (p.suffix.map Char.toLower ∈ [".mp3".data, ".wav".data] →
        r.llm_support = some ["gpt-4o-audio-preview-2024-10-01"]) ∧
      (p.suffix.map Char.toLower ∉ [".mp3".data, ".wav".data] →
        r.llm_support = none) := by
  unfold get_audio_file_support
  rw [h]
  refine ⟨_, rfl, ?_, ?_, ?_, ?_⟩ <;> intro hmem <;>
    simp only [WHISPER_AUDIO_FORMATS, GPT_4O_AUDIO_FORMATS] <;>
    simp [hmem]

/-- Witness for C3 at a .m4a file (spec scenario C): transcription support is
the whisper model, chat support is None. -/
theorem resolver_support_sets_witness :
    ∃ r, get_audio_file_support statEnvAll ⟨"/tmp", "memo.m4a".data⟩ = .ok r ∧
      (PyPath.suffix ⟨"/tmp", "memo.m4a".data⟩ |>.map Char.toLower) ∈
          ([".mp3".data, ".wav".data, ".mp4".data, ".mpeg".data, ".mpga".data,
            ".m4a".data, ".webm".data] : List (List Char)) ∧
      r.transcription_support = some ["whisper-1"] ∧ r.llm_support = none := by
  obtain ⟨r, hr, h1, _, _, h4⟩ :=
    resolver_support_sets statEnvAll ⟨"/tmp", "memo.m4a".data⟩ 0 rfl
  exact ⟨r, hr, by decide, h1 (by decide), h4 (by decide)⟩

/-! ## Claim C5: compression is a no-op at or below the threshold -/

/-- Claim C5: for every source file whose measured size is at most
max_mb * 1024 * 1024 bytes, maybe_compress_file returns the original source
path unchanged, its only filesystem effect is the measuring read, and in
particular it performs no write and no codec invocation. -/
theorem maybe_compress_small_noop (env : CodecEnv) (input_file : PyPath)
    (output_path : Option PyPath) (max_mb sz : Nat)
    (hsz : env.size input_file = some sz)
    (hle : sz ≤ max_mb * 1024 * 1024) :
    maybe_compress_file env input_file output_path max_mb =
      (.ok input_file, [.readFull input_file]) ∧
    ((maybe_compress_file env input_file output_path max_mb).2.filter CodecEvent.isWrite) = [] := by
  have h1 : maybe_compress_file env input_file output_path max_mb =
      (.ok input_file, [.readFull input_file]) := by
    unfold maybe_compress_file
    rw [hsz]
    dsimp only
    rw [if_pos hle]
  exact ⟨h1, by rw [h1]; rfl⟩

/-- Witness for C5: a 5 MB wav file against the default 25 MB threshold
(spec scenario A) is returned unchanged with no write. -/
theorem maybe_compress_small_noop_witness :
    maybe_compress_file (codecEnvOk (5 * 1024 * 1024)) ⟨"/tmp", "clip.wav".data⟩ none 25 =
      (.ok ⟨"/tmp", "clip.wav".data⟩, [.readFull ⟨"/tmp", "clip.wav".data⟩]) ∧
    ((maybe_compress_file (codecEnvOk (5 * 1024 * 1024)) ⟨"/tmp", "clip.wav".data⟩ none 25).2.filter
        CodecEvent.isWrite) = [] :=
  maybe_compress_small_noop (codecEnvOk (5 * 1024 * 1024)) ⟨"/tmp", "clip.wav".data⟩ none 25
    (5 * 1024 * 1024) rfl (by norm_num)

/-! ## Claim C7: default conversion destination -/

/-- Claim C7: when the destination is omitted and the conversion succeeds,
convert_to_supported_format returns the source path with its extension
replaced by the target format, and its write goes to exactly that path, for
every legal target format (mp3 or wav). -/
theorem convert_default_destination (env : CodecEnv) (input_file : PyPath)
    (fmt : String) (p : PyPath)
    (hfmt : fmt = "mp3" ∨ fmt = "wav")
    (hok : (convert_to_supported_format env input_file none fmt).1 = .ok p) :
    p = input_file.withSuffix ("." ++ fmt).data ∧
    (convert_to_supported_format env input_file none fmt).2 =
      [.decodeEv input_file (input_file.suffix.drop 1),
       .exportEv (input_file.withSuffix ("." ++ fmt).data) fmt.data ["-ac", "2"]] := by
  clear hfmt
  unfold convert_to_supported_format at hok ⊢
  dsimp only at hok ⊢
  by_cases hname : input_file.name = []
  · rw [if_pos hname] at hok
    exact absurd hok (by simp)
  · rw [if_neg hname] at hok ⊢
    unfold convertBody at hok ⊢
    cases hdec : env.decode input_file (input_file.suffix.drop 1) with
    | error e => simp only [hdec] at hok; exact absurd hok (by simp)
    | ok u =>
      simp only [hdec] at hok ⊢
      cases henc : env.encode (input_file.withSuffix ("." ++ fmt).data) fmt.data ["-ac", "2"] with
      | error e => simp only [henc] at hok; exact absurd hok (by simp)
      | ok u2 =>
        simp only [henc] at hok ⊢
        exact ⟨(Except.ok.inj hok).symm, trivial⟩

/-- Witness for C7: converting an .ogg file to mp3 with no destination writes
to and returns the sibling .mp3 path. -/
theorem convert_default_destination_witness :
    (⟨"/tmp", "voice.mp3".data⟩ : PyPath) =
      PyPath.withSuffix ⟨"/tmp", "voice.ogg".data⟩ ("." ++ "mp3").data ∧
    (convert_to_supported_format (codecEnvOk 0) ⟨"/tmp", "voice.ogg".data⟩ none "mp3").2 =
      [.decodeEv ⟨"/tmp", "voice.ogg".data⟩ ((PyPath.suffix ⟨"/tmp", "voice.ogg".data⟩).drop 1),
       .exportEv (PyPath.withSuffix ⟨"/tmp", "voice.ogg".data⟩ ("." ++ "mp3").data)
         "mp3".data ["-ac", "2"]] :=
  convert_default_destination (codecEnvOk 0) ⟨"/tmp", "voice.ogg".data⟩ "mp3"
    ⟨"/tmp", "voice.mp3".data⟩ (Or.inl rfl) rfl

/-! ## Claim C8: speech-to-text worker file check -/

/-- Claim C8: the per-item transcribe_audio worker fails with a
file-not-found error exactly when the path does not exist or is not a
regular file at call time; in that case it performs no read and no remote
call (empty effect trace), and when the file check passes every failure is
reported as the distinct RuntimeError transcription failure. -/
theorem transcribe_file_check (env : WhisperEnv) (inp : TranscribeAudioInputParams) :
    (¬(env.pexists inp.input_file_path = true ∧ env.is_file inp.input_file_path = true) →
      (process_single_transcribe env inp).1 =
        .error (.fileNotFoundError ("File not found: " ++ inp.input_file_path.toStr)) ∧
      (process_single_transcribe env inp).2 = []) ∧
    (env.pexists inp.input_file_path = true → env.is_file inp.input_file_path = true →
      (∀ m, (process_single_transcribe env inp).1 ≠ .error (.fileNotFoundError m)) ∧
      (∀ e, (process_single_transcribe env inp).1 = .error e → ∃ m, e = .runtimeError m)) := by
  constructor
  · intro hmiss
    have hcond : (!env.pexists inp.input_file_path || !env.is_file inp.input_file_path) = true := by
      cases hp : env.pexists inp.input_file_path <;> cases hq : env.is_file inp.input_file_path <;>
        simp_all
    unfold process_single_transcribe
    rw [if_pos hcond]
    exact ⟨rfl, rfl⟩
  · intro hex hf
    have hcond : (!env.pexists inp.input_file_path || !env.is_file inp.input_file_path) = false := by
      simp [hex, hf]
    unfold process_single_transcribe
    rw [if_neg (by simp [hcond])]
    cases hread : env.readBytes inp.input_file_path with
    | error e =>
      simp only [hread]
      exact ⟨fun m h => by simp at h, fun e2 h => ⟨_, (Except.error.inj h).symm⟩⟩
    | ok bs =>
      simp only [hread]
      cases hapi : env.transcriptionsCreate inp.model bs inp.input_file_path.name with
      | error e =>
        simp only [hapi]
        exact ⟨fun m h => by simp at h, fun e2 h => ⟨_, (Except.error.inj h).symm⟩⟩
      | ok t =>
        simp only [hapi]
        exact ⟨fun m h => by simp at h, fun e2 h => by simp at h⟩

/-- Witness for C8 on a missing file: the worker fails with FileNotFoundError
and the effect trace is empty. -/
theorem transcribe_file_check_witness :
    (process_single_transcribe whisperEnvMissing { input_file_path := ⟨"/tmp", "gone.mp3".data⟩ }).1 =
      .error (.fileNotFoundError ("File not found: " ++ PyPath.toStr ⟨"/tmp", "gone.mp3".data⟩)) ∧
    (process_single_transcribe whisperEnvMissing { input_file_path := ⟨"/tmp", "gone.mp3".data⟩ }).2 = [] :=
  (transcribe_file_check whisperEnvMissing { input_file_path := ⟨"/tmp", "gone.mp3".data⟩ }).1
    (by decide)

/-! ## Characterising the chat path's extension computation -/

theorem toLower_dot_eq : Char.toLower '.' = '.' := by decide

theorem map_toLower_no_dot {t : List Char} (h : '.' ∉ t) : '.' ∉ t.map Char.toLower := by
  intro hmem
  obtain ⟨c, hc, heq⟩ := List.mem_map.mp hmem
  rw [toLower_eq_dot heq] at hc
  exact h hc

/-- The dot-stripped lowercased suffix equals mp3/wav exactly when the
lowercased suffix is .mp3/.wav: the Python suffix contains exactly its
leading dot, so str.replace of the dot only drops that leading dot. -/
theorem llmExt_eq_iff (p : PyPath) {e : List Char} (hne : e ≠ []) :
    llmExt p = e ↔ p.suffix.map Char.toLower = '.' :: e := by
  unfold llmExt
  rcases pySuffix_shape p.name with h | ⟨t, h, hdot⟩
  · rw [show p.suffix = pySuffix p.name from rfl, h]
    simp only [List.map_nil, List.filter_nil]
    constructor
    · intro he; exact absurd he.symm hne
    · intro he; exact absurd he (by simp)
  · rw [show p.suffix = pySuffix p.name from rfl, h]
    simp only [List.map_cons, toLower_dot_eq]
    have hfilter : ('.' :: t.map Char.toLower).filter (fun c => c ≠ '.') = t.map Char.toLower := by
      rw [List.filter_cons]
      have : (decide ¬('.' : Char) = '.') = false := by decide
      simp only [ne_eq, this]
      rw [if_neg (by simp)]
      apply List.filter_eq_self.mpr
      intro c hc
      have : c ≠ '.' := fun hcc => (map_toLower_no_dot hdot) (hcc ▸ hc)
      simpa using this
    rw [hfilter]
    constructor
    · intro he; rw [he]
    · intro he; exact (List.cons.inj he).2

/-! ## Claim C9: chat-path extension assertion -/

/-- Claim C9: for an existing regular file whose lowercased extension is .mp3
or .wav the extension assertion in the transcribe_with_llm worker can never
fire, and for an existing regular file with any other extension the worker
fails with the assertion error before any effect (empty trace, hence before
any read or remote dispatch). -/
theorem llm_extension_assertion (env : LLMEnv) (inp : TranscribeWithLLMInputParams)
    (hex : env.pexists inp.input_file_path = true)
    (hf : env.is_file inp.input_file_path = true) :
    ((inp.input_file_path.suffix.map Char.toLower = ".mp3".data ∨
      inp.input_file_path.suffix.map Char.toLower = ".wav".data) →
      ∀ m, (process_single_llm env inp).1 ≠ .error (.assertionError m)) ∧
    ((inp.input_file_path.suffix.map Char.toLower ≠ ".mp3".data ∧
      inp.input_file_path.suffix.map Char.toLower ≠ ".wav".data) →
      (∃ m, (process_single_llm env inp).1 = .error (.assertionError m)) ∧
      (process_single_llm env inp).2 = []) := by
  have hcond : (!env.pexists inp.input_file_path || !env.is_file inp.input_file_path) = false := by
    simp [hex, hf]
  constructor
  · intro hgood m
    have hext : llmExt inp.input_file_path = "mp3".data ∨
        llmExt inp.input_file_path = "wav".data := by
      rcases hgood with h | h
      · exact Or.inl ((llmExt_eq_iff _ (by decide)).mpr h)
      · exact Or.inr ((llmExt_eq_iff _ (by decide)).mpr h)
    have hassert : (!(decide (llmExt inp.input_file_path = "mp3".data) ||
        decide (llmExt inp.input_file_path = "wav".data))) = false := by
      rcases hext with h | h <;> simp [h]
    unfold process_single_llm
    simp only [hcond, hassert]
    simp only [Bool.false_eq_true, if_false]
    cases hread : env.readBytes inp.input_file_path with
    | error e => simp
    | ok bs =>
      cases hapi : env.chatCompletionsCreate inp.model
          ((if strOptTruthy inp.text_prompt then
              [ContentPart.text (inp.text_prompt.getD "")] else []) ++
            [ContentPart.input_audio (env.b64encode bs) (llmExt inp.input_file_path)]) with
      | error e => simp [hapi]
      | ok c => simp [hapi]
  · intro hbad
    have h1 : llmExt inp.input_file_path ≠ "mp3".data := fun hh =>
      hbad.1 ((llmExt_eq_iff _ (by decide)).mp hh)
    have h2 : llmExt inp.input_file_path ≠ "wav".data := fun hh =>
      hbad.2 ((llmExt_eq_iff _ (by decide)).mp hh)
    have hassert : (!(decide (llmExt inp.input_file_path = "mp3".data) ||
        decide (llmExt inp.input_file_path = "wav".data))) = true := by
      simp [h1, h2]
    unfold process_single_llm
    simp only [hcond, hassert]
    simp only [Bool.false_eq_true, if_false, if_true]
    exact ⟨⟨_, rfl⟩, trivial⟩

/-- Witness for C9 at a .txt file in an environment where it exists: the
worker stops at the assertion with an empty trace. -/
theorem llm_extension_assertion_witness :
    (∃ m, (process_single_llm llmEnvOk
        { input_file_path := ⟨"/tmp", "notes.txt".data⟩ }).1 =
      .error (.assertionError m)) ∧
    (process_single_llm llmEnvOk { input_file_path := ⟨"/tmp", "notes.txt".data⟩ }).2 = [] :=
  (llm_extension_assertion llmEnvOk { input_file_path := ⟨"/tmp", "notes.txt".data⟩ }
    rfl rfl).2 (by decide)

/-! ## Claim C10: empty text prompt builds no text part -/

/-- Claim C10: in the transcribe_with_llm worker, an empty-string prompt is
treated exactly like an omitted prompt — the dispatched message content is
just the audio part — and a text part leads the message if and only if the
prompt is a non-empty string. -/
theorem llm_empty_prompt_no_text_part (env : LLMEnv) (inp : TranscribeWithLLMInputParams)
    (bs : List Nat)
    (hex : env.pexists inp.input_file_path = true)
    (hf : env.is_file inp.input_file_path = true)
    (hext : llmExt inp.input_file_path = "mp3".data ∨ llmExt inp.input_file_path = "wav".data)
    (hread : env.readBytes inp.input_file_path = .ok bs) :
    ((inp.text_prompt = none ∨ inp.text_prompt = some "") →
      (process_single_llm env inp).2 =
        [.readEv inp.input_file_path,
         .apiEv inp.model
           [ContentPart.input_audio (env.b64encode bs) (llmExt inp.input_file_path)]]) ∧
    (∀ s, inp.text_prompt = some s → s ≠ "" →
      (process_single_llm env inp).2 =
        [.readEv inp.input_file_path,
         .apiEv inp.model
           [ContentPart.text s,
            ContentPart.input_audio (env.b64encode bs) (llmExt inp.input_file_path)]]) := by
  have hcond : (!env.pexists inp.input_file_path || !env.is_file inp.input_file_path) = false := by
    simp [hex, hf]
  have hassert : (!(decide (llmExt inp.input_file_path = "mp3".data) ||
      decide (llmExt inp.input_file_path = "wav".data))) = false := by
    rcases hext with h | h <;> simp [h]
  constructor
  · intro hempty
    have htruthy : strOptTruthy inp.text_prompt = false := by
      rcases hempty with h | h <;> simp [h, strOptTruthy]
    unfold process_single_llm
    simp only [hcond, hassert, Bool.false_eq_true, if_false, hread, htruthy]
    cases hapi : env.chatCompletionsCreate inp.model
        ([] ++ [ContentPart.input_audio (env.b64encode bs) (llmExt inp.input_file_path)]) with
    | error e => simp [hapi]
    | ok c => simp [hapi]
  · intro s hs hsne
    have htruthy : strOptTruthy (some s) = true := by
      simp [strOptTruthy, hsne]
    unfold process_single_llm
    simp only [hcond, hassert, Bool.false_eq_true, if_false, hread, hs, htruthy, if_true]
    cases hapi : env.chatCompletionsCreate inp.model
        [ContentPart.text s,
         ContentPart.input_audio (env.b64encode bs) (llmExt inp.input_file_path)] with
    | error e => simp [hapi]
    | ok c => simp [hapi]

/-- Witness for C10: with an omitted prompt on an existing .mp3 file, the
dispatched message consists of the audio part alone. -/
theorem llm_empty_prompt_no_text_part_witness :
    (process_single_llm llmEnvOk { input_file_path := ⟨"/tmp", "talk.mp3".data⟩ }).2 =
      [.readEv ⟨"/tmp", "talk.mp3".data⟩,
       .apiEv "gpt-4o-audio-preview-2024-10-01"
         [ContentPart.input_audio (llmEnvOk.b64encode [1, 2, 3])
           (llmExt ⟨"/tmp", "talk.mp3".data⟩)]] :=
  (llm_empty_prompt_no_text_part llmEnvOk { input_file_path := ⟨"/tmp", "talk.mp3".data⟩ }
    [1, 2, 3] rfl rfl (by decide) rfl).1 (Or.inl rfl)

/-! ## Claim C4: one downsampling pass above the threshold -/

/-- Success shape of compress_mp3_file for any destination option: the
result is the explicit destination when one is given, else the sibling
compressed_{stem}.mp3 path, and the trace is one decode followed by one
export at the requested sample rate to that path. -/
theorem compress_mp3_success_shape (env : CodecEnv) (f p : PyPath)
    (output_path : Option PyPath) (r : Nat)
    (hsuf : f.suffix.map Char.toLower = ".mp3".data)
    (hok : (compress_mp3_file env f output_path r).1 = .ok p) :
    p = output_path.getD
        { parent := f.parent, name := "compressed_".data ++ f.stem ++ ".mp3".data } ∧
    (compress_mp3_file env f output_path r).2 =
      [.decodeEv f "mp3".data,
       .exportEv (output_path.getD
           { parent := f.parent, name := "compressed_".data ++ f.stem ++ ".mp3".data })
         "mp3".data ["-ar", toString r]] := by
  unfold compress_mp3_file at hok ⊢
  rw [if_neg (by simp [hsuf])] at hok ⊢
  dsimp only at hok ⊢
  cases hdec : env.decode f "mp3".data with
  | error e => simp only [hdec] at hok; exact absurd hok (by simp)
  | ok u =>
    simp only [hdec] at hok ⊢
    cases henc : env.encode (output_path.getD
        (⟨f.parent, "compressed_".data ++ f.stem ++ ".mp3".data⟩ : PyPath))
        "mp3".data ["-ar", toString r] with
    | error e => simp only [henc] at hok; exact absurd hok (by simp)
    | ok u2 =>
      simp only [henc] at hok ⊢
      exact ⟨(Except.ok.inj hok).symm, trivial⟩

/-- Claim C4: for every source strictly above the byte threshold and every
destination option, a successful maybe_compress_file run performs exactly one
downsampling export, at the fixed 11025 Hz rate, and returns that export
destination: the explicit destination when one is given, else the sibling
compressed_{original-stem}.mp3.  The environment (in particular the size of
the produced file) is unconstrained: no re-check of the result against the
threshold occurs. -/
theorem compress_single_downsample (env : CodecEnv) (input_file : PyPath)
    (output_path : Option PyPath) (max_mb sz : Nat) (p : PyPath)
    (hsz : env.size input_file = some sz)
    (hgt : max_mb * 1024 * 1024 < sz)
    (hok : (maybe_compress_file env input_file output_path max_mb).1 = .ok p) :
    ((maybe_compress_file env input_file output_path max_mb).2.filter CodecEvent.isResample) =
      [.exportEv p "mp3".data ["-ar", "11025"]] ∧
    (output_path = none →
      p = { parent := input_file.parent
            name := "compressed_".data ++ input_file.stem ++ ".mp3".data }) ∧
    (∀ dest, output_path = some dest → p = dest) := by
  unfold maybe_compress_file at hok ⊢
  rw [hsz] at hok ⊢
  dsimp only at hok ⊢
  rw [if_neg (by omega)] at hok ⊢
  by_cases hmp3 : input_file.suffix.map Char.toLower = ".mp3".data
  · -- already mp3: no conversion step
    rw [if_neg (by simp [hmp3])] at hok ⊢
    cases hcomp : compress_mp3_file env input_file output_path 11025 with
    | mk res evs =>
      cases res with
      | error e => simp only [hcomp] at hok; exact absurd hok (by simp)
      | ok cp =>
        simp only [hcomp] at hok ⊢
        cases hsz2 : env.size cp with
        | none => simp only [hsz2] at hok; exact absurd hok (by simp)
        | some m =>
          simp only [hsz2] at hok ⊢
          have hp : p = cp := (Except.ok.inj hok).symm
          have hshape := compress_mp3_success_shape env input_file cp output_path 11025 hmp3
            (by rw [hcomp])
          subst hp
          have hevs : evs = (compress_mp3_file env input_file output_path 11025).2 := by
            rw [hcomp]
          refine ⟨?_, ?_, ?_⟩
          · rw [hevs, hshape.2, ← hshape.1]
            rfl
          · intro hnone
            rw [hshape.1, hnone]
            rfl
          · intro dest hdest
            rw [hshape.1, hdest]
            rfl
  · -- not mp3: convert first, then downsample the converted file
    rw [if_pos (by simpa using hmp3)] at hok ⊢
    by_cases hname : input_file.name = []
    · -- with_suffix raises: the whole call fails, contradicting success
      unfold convert_to_supported_format at hok
      rw [if_pos hname] at hok
      simp at hok
    · have hconvshape : ∀ q, (convert_to_supported_format env input_file none "mp3").1 = .ok q →
          q = input_file.withSuffix ".mp3".data := by
        intro q hq
        exact (convert_default_destination env input_file "mp3" q (Or.inl rfl) hq).1
      cases hconv : convert_to_supported_format env input_file none "mp3" with
      | mk cres cevs =>
        cases cres with
        | error e => simp only [hconv] at hok; exact absurd hok (by simp)
        | ok mp3file =>
          simp only [hconv] at hok ⊢
          have hmp3file : mp3file = input_file.withSuffix ".mp3".data := by
            apply hconvshape
            rw [hconv]
          have hsuf2 : mp3file.suffix.map Char.toLower = ".mp3".data := by
            rw [hmp3file]
            show (pySuffix (pyWithSuffix input_file.name ".mp3".data)).map Char.toLower = _
            rw [pySuffix_withSuffix_mp3 hname]
            decide
          cases hcomp : compress_mp3_file env mp3file output_path 11025 with
          | mk res evs2 =>
            cases res with
            | error e => simp only [hcomp] at hok; exact absurd hok (by simp)
            | ok cp =>
              simp only [hcomp] at hok ⊢
              cases hsz2 : env.size cp with
              | none => simp only [hsz2] at hok; exact absurd hok (by simp)
              | some m =>
                simp only [hsz2] at hok ⊢
                have hp : p = cp := (Except.ok.inj hok).symm
                have hshape := compress_mp3_success_shape env mp3file cp output_path 11025 hsuf2
                  (by rw [hcomp])
                subst hp
                have hparent : mp3file.parent = input_file.parent := by rw [hmp3file]; rfl
                have hstem : mp3file.stem = input_file.stem := by
                  rw [hmp3file]
                  show pyStem (pyWithSuffix input_file.name ".mp3".data) = _
                  exact pyStem_withSuffix_mp3 hname
                rw [hparent, hstem] at hshape
                have hcevs : cevs = (convert_to_supported_format env input_file none "mp3").2 := by
                  rw [hconv]
                have hcevs2 : cevs = [.decodeEv input_file (input_file.suffix.drop 1),
                    .exportEv (input_file.withSuffix ("." ++ "mp3").data) "mp3".data
                      ["-ac", "2"]] := by
                  rw [hcevs]
                  exact (convert_default_destination env input_file "mp3" mp3file (Or.inl rfl)
                    (by rw [hconv])).2
                have hevs2 : evs2 = (compress_mp3_file env mp3file output_path 11025).2 := by
                  rw [hcomp]
                refine ⟨?_, ?_, ?_⟩
                · rw [hcevs2, hevs2, hshape.2, ← hshape.1]
                  rfl
                · intro hnone
                  rw [hshape.1, hnone]
                  rfl
                · intro dest hdest
                  rw [hshape.1, hdest]
                  rfl

/-- Witness for C4: a 30 MB mp3 against the default 25 MB threshold (spec
scenario B) gets exactly one 11025 Hz downsampling pass, writing the sibling
compressed_track.mp3 when no destination is given and the explicit
destination when one is. -/
theorem compress_single_downsample_witness :
    ((maybe_compress_file (codecEnvOk (30 * 1024 * 1024)) ⟨"/tmp", "track.mp3".data⟩ none 25).2.filter
        CodecEvent.isResample) =
      [.exportEv ⟨"/tmp", "compressed_track.mp3".data⟩ "mp3".data ["-ar", "11025"]] ∧
    (⟨"/tmp", "compressed_track.mp3".data⟩ : PyPath) =
      { parent := "/tmp", name := "compressed_".data ++ PyPath.stem ⟨"/tmp", "track.mp3".data⟩ ++
          ".mp3".data } ∧
    ((maybe_compress_file (codecEnvOk (30 * 1024 * 1024)) ⟨"/tmp", "track.mp3".data⟩
        (some ⟨"/out", "small.mp3".data⟩) 25).2.filter CodecEvent.isResample) =
      [.exportEv ⟨"/out", "small.mp3".data⟩ "mp3".data ["-ar", "11025"]] :=
  ⟨(compress_single_downsample (codecEnvOk (30 * 1024 * 1024)) ⟨"/tmp", "track.mp3".data⟩ none 25
      (30 * 1024 * 1024) ⟨"/tmp", "compressed_track.mp3".data⟩ rfl (by norm_num) rfl).1,
   (compress_single_downsample (codecEnvOk (30 * 1024 * 1024)) ⟨"/tmp", "track.mp3".data⟩ none 25
      (30 * 1024 * 1024) ⟨"/tmp", "compressed_track.mp3".data⟩ rfl (by norm_num) rfl).2.1 rfl,
   (compress_single_downsample (codecEnvOk (30 * 1024 * 1024)) ⟨"/tmp", "track.mp3".data⟩
      (some ⟨"/out", "small.mp3".data⟩) 25 (30 * 1024 * 1024) ⟨"/out", "small.mp3".data⟩ rfl
      (by norm_num) rfl).1⟩

/-! ## Claims C1 and C2: batch orchestration -/

/-- When every reachable worker succeeds, processing any completion schedule
fills exactly the scheduled slots with the workers' results. -/
theorem completeTasks_ok {α β ε : Type _} (worker : α → Except ε β) (f : α → β)
    (inputs : List α)
    (hf : ∀ a ∈ inputs, worker a = .ok (f a)) :
    ∀ (order : List Nat) (slots : Nat → Option β),
      completeTasks worker inputs order slots =
        .ok (fun j => if j ∈ order then
               (match inputs.get? j with
                | some a => some (f a)
                | none => slots j)
             else slots j) := by
  intro order
  induction order with
  | nil =>
    intro slots
    rfl
  | cons i rest ih =>
    intro slots
    unfold completeTasks
    cases hget : inputs.get? i with
    | none =>
      dsimp only
      rw [ih]
      congr 1
      funext j
      by_cases hj : j = i
      · subst hj
        have hget2 : inputs[j]? = (none : Option α) := by
          rw [← List.get?_eq_getElem?]; exact hget
        by_cases hmem : j ∈ rest <;> simp [hmem, hget2, List.mem_cons]
      · by_cases hmem : j ∈ rest <;> simp [hmem, hj, List.mem_cons]
    | some a =>
      dsimp only
      rw [hf a (List.get?_mem hget)]
      dsimp only
      rw [ih]
      congr 1
      funext j
      by_cases hj : j = i
      · subst hj
        have hget2 : inputs[j]? = some a := by
          rw [← List.get?_eq_getElem?]; exact hget
        by_cases hmem : j ∈ rest <;> simp [hmem, hget2, List.mem_cons]
      · by_cases hmem : j ∈ rest <;> simp [hmem, hj, List.mem_cons]

/-- A scheduled failing task makes the whole run fail with a failing item's
error, whatever the interleaving before it. -/
theorem completeTasks_err {α β ε : Type _} (worker : α → Except ε β) (inputs : List α) :
    ∀ (order : List Nat) (slots : Nat → Option β),
      (∃ i, i ∈ order ∧ ∃ a, inputs.get? i = some a ∧ ∃ e0, worker a = .error e0) →
      ∃ e, completeTasks worker inputs order slots = .error e ∧
        ∃ j, j ∈ order ∧ ∃ a2, inputs.get? j = some a2 ∧ worker a2 = .error e := by
  intro order
  induction order with
  | nil =>
    intro slots h
    obtain ⟨i, hi, _⟩ := h
    exact absurd hi (by simp)
  | cons k rest ih =>
    intro slots h
    unfold completeTasks
    cases hget : inputs.get? k with
    | none =>
      dsimp only
      obtain ⟨i, hi, a, ha, e0, he⟩ := h
      have hirest : i ∈ rest := by
        rcases List.mem_cons.mp hi with h1 | h2
        · subst h1; rw [hget] at ha; exact absurd ha (by simp)
        · exact h2
      obtain ⟨e, hrun, j, hj, a2, ha2, he2⟩ := ih slots ⟨i, hirest, a, ha, e0, he⟩
      exact ⟨e, hrun, j, List.mem_cons_of_mem _ hj, a2, ha2, he2⟩
    | some a =>
      dsimp only
      cases hw : worker a with
      | error e => exact ⟨e, rfl, k, List.mem_cons_self _ _, a, hget, hw⟩
      | ok b =>
        obtain ⟨i, hi, a1, ha1, e0, he⟩ := h
        have hirest : i ∈ rest := by
          rcases List.mem_cons.mp hi with h1 | h2
          · subst h1
            rw [hget] at ha1
            have ha1' : a1 = a := (Option.some.inj ha1).symm
            subst ha1'
            rw [hw] at he
            exact absurd he (by simp)
          · exact h2
        obtain ⟨e, hrun, j, hj, a2, ha2, he2⟩ :=
          ih (fun j => if j = k then some b else slots j) ⟨i, hirest, a1, ha1, e0, he⟩
        exact ⟨e, hrun, j, List.mem_cons_of_mem _ hj, a2, ha2, he2⟩

/-- Claim C2: when every per-item worker succeeds, the batch call returns a
list with exactly one filled slot per input, and the i-th slot holds the
worker's result on the i-th input, for every completion schedule (any
permutation of the task indices), independent of completion order. -/
theorem batch_preserves_order {α β ε : Type _} (worker : α → Except ε β) (f : α → β)
    (inputs : List α) (order : List Nat)
    (hperm : order.Perm (List.range inputs.length))
    (hf : ∀ a ∈ inputs, worker a = .ok (f a)) :
    asyncio_gather worker inputs order = .ok (inputs.map (fun a => some (f a))) ∧
    (inputs.map (fun a => some (f a))).length = inputs.length := by
  refine ⟨?_, by simp⟩
  unfold asyncio_gather
  rw [completeTasks_ok worker f inputs hf order (fun _ => none)]
  dsimp only
  congr 1
  apply List.ext_get
  · simp
  · intro n h1 h2
    have hn : n < inputs.length := by simpa using h2
    have hmem : n ∈ order := by
      rw [hperm.mem_iff, List.mem_range]
      exact hn
    simp only [List.get_map, List.get_range]
    rw [if_pos hmem, List.get?_eq_get hn]

/-- Claim C1: whenever some item's worker fails, the batch call as a whole
fails — the caller receives an exception carrying a failing item's error and
no result list at all — and when that item is the only failing one, the
surfaced error is exactly that item's error, for every completion schedule. -/
theorem batch_fail_fast {α β ε : Type _} (worker : α → Except ε β) (inputs : List α)
    (order : List Nat) (i : Nat) (a : α) (e0 : ε)
    (hperm : order.Perm (List.range inputs.length))
    (ha : inputs.get? i = some a)
    (hfail : worker a = .error e0) :
    (∃ e, asyncio_gather worker inputs order = .error e ∧
       ∃ j a2, inputs.get? j = some a2 ∧ worker a2 = .error e) ∧
    ((∀ j a2 e2, inputs.get? j = some a2 → worker a2 = .error e2 → j = i) →
      asyncio_gather worker inputs order = .error e0) := by
  have hlt : i < inputs.length := by
    cases hl : inputs.get? i with
    | none => rw [hl] at ha; exact absurd ha (by simp)
    | some a3 => exact (List.get?_eq_some.mp ha).1
  have hi : i ∈ order := by
    rw [hperm.mem_iff, List.mem_range]
    exact hlt
  obtain ⟨e, hrun, j, hj, a2, ha2, he2⟩ :=
    completeTasks_err worker inputs order (fun _ => none) ⟨i, hi, a, ha, e0, hfail⟩
  have hgather : asyncio_gather worker inputs order = .error e := by
    unfold asyncio_gather
    rw [hrun]
  constructor
  · exact ⟨e, hgather, j, a2, ha2, he2⟩
  · intro huniq
    have hj_eq : j = i := huniq j a2 e ha2 he2
    subst hj_eq
    rw [ha] at ha2
    have ha2' : a2 = a := (Option.some.inj ha2).symm
    subst ha2'
    rw [hfail] at he2
    rw [hgather, Except.error.inj he2]

/-- Witness for C2: three items, all succeeding, completed in the order
2, 0, 1, still produce the in-order result list. -/
theorem batch_preserves_order_witness :
    asyncio_gather (fun n => (.ok (n + 1) : Except String Nat)) [10, 20, 30] [2, 0, 1] =
      .ok ([10, 20, 30].map (fun n => some (n + 1))) ∧
    (([10, 20, 30].map (fun (n : Nat) => some (n + 1))).length = ([10, 20, 30] : List Nat).length) :=
  batch_preserves_order (fun n => (.ok (n + 1) : Except String Nat)) (fun n => n + 1)
    [10, 20, 30] [2, 0, 1] (by decide) (fun a _ => rfl)

/-- Witness for C1: a batch of three with the middle item failing surfaces
exactly that item's error and no result list (spec scenario E flavour). -/
theorem batch_fail_fast_witness :
    asyncio_gather (fun n => if n = 20 then (.error "boom" : Except String Nat) else .ok n)
      [10, 20, 30] [2, 0, 1] = .error "boom" :=
  (batch_fail_fast (fun n => if n = 20 then (.error "boom" : Except String Nat) else .ok n)
    [10, 20, 30] [2, 0, 1] 1 20 "boom" (by decide) rfl rfl).2
    (by
      intro j a2 e2 hga hw
      rcases j with _ | _ | _ | j4
      · rw [show ([10, 20, 30] : List Nat).get? 0 = some 10 from rfl] at hga
        rw [← Option.some.inj hga] at hw
        exact absurd hw (by simp)
      · rfl
      · rw [show ([10, 20, 30] : List Nat).get? 2 = some 30 from rfl] at hga
        rw [← Option.some.inj hga] at hw
        exact absurd hw (by simp)
      · rw [show ([10, 20, 30] : List Nat).get? (j4 + 3) = none from rfl] at hga
        exact absurd hga (by simp))

end MCPWhisper
